import Mathlib

/-
  Shallow embedding of the rating/decay/leaderboard engine of
  Match-History-To-Trueskill (src/process.py and src/output.py, the modular
  copy of the engine; src/main.py holds a superseded monolithic copy).
  Python dicts are modelled as insertion-ordered association lists, Python
  sets as duplicate-free insertion-ordered lists (only membership is ever
  observed), floats as exact rationals, and calendar dates as integers
  (day numbers; the timestamp-to-date conversion is the external datetime
  boundary).  The external trueskill `rate` call is an opaque parameter.
-/

namespace MHTT

/-- A (mean, uncertainty) skill distribution, `trueskill.Rating`. -/
structure Rating where
  mu : ℚ
  sigma : ℚ
deriving DecidableEq

/-- One per-player ledger record, class `Player` of src/process.py. -/
structure Player where
  user_id : String
  name : String
  rating : Rating
  games_played : ℕ
  wins : ℕ
  losses : ℕ
  last_played : Option Int
  secondary_ids : List String
  total_pick_order : Int
  pick_order_count : ℕ
  avg_pick_order : ℚ
  recent_games : ℕ
deriving DecidableEq

/-- One participant entry of a match record (src schema: user id/name, team,
captain flag, optional pick order). -/
structure Participant where
  id : String
  name : String
  team : ℕ
  captain : ℕ
  pickOrder : Option Int
deriving DecidableEq

/-- One external match record: calendar date (from completionTimestamp in the
configured timezone), winningTeam (0 = tie, 1 or 2), participants. -/
structure Match where
  date : Int
  winningTeam : ℕ
  players : List Participant
deriving DecidableEq

/-- The configuration fields of `GameProcessor.__init__` that the engine
reads (I/O and formatting settings excluded). -/
structure Config where
  user_aliases : List (String × List String)
  min_games_required : ℕ
  last_days_threshold : ℕ
  min_games_last_days : ℕ
  discard_ties : Bool
  decay_amount : ℚ
  grace_days : ℕ
  max_decay_proportion : ℚ
  default_sigma : ℚ
  default_mu : ℚ
  top_x : ℕ
deriving DecidableEq

/-- Association-list lookup; Python dict indexing/`in`. -/
def alookup {α β : Type} [DecidableEq α] (k : α) : List (α × β) → Option β
  | [] => none
  | e :: rest => if k = e.1 then some e.2 else alookup k rest

/-- Association-list write; Python dict assignment (updates in place, appends
a fresh key at the end, preserving insertion order). -/
def aset {α β : Type} [DecidableEq α] (k : α) (v : β) : List (α × β) → List (α × β)
  | [] => [(k, v)]
  | e :: rest => if k = e.1 then (e.1, v) :: rest else e :: aset k v rest

/-- In-place mutation of one dict value (Python attribute assignment through a
dict-held reference).  Missing key: no entry to mutate. -/
def aupdate {α β : Type} [DecidableEq α] (k : α) (f : β → β) : List (α × β) → List (α × β)
  | [] => []
  | e :: rest => if k = e.1 then (e.1, f e.2) :: rest else e :: aupdate k f rest

/-- Python `set.add`: membership-preserving insert. -/
def setAdd (x : String) (s : List String) : List String :=
  if x ∈ s then s else s ++ [x]

/-- The played-dates timeline: date -> set of raw participant ids. -/
abbrev Timeline := List (Int × List String)

/-- The opaque external pairwise rating update: winner team's ratings first,
returns the two updated lists in the same order (`trueskill.rate`). -/
abbrev RateFn := List Rating → List Rating → List Rating × List Rating

/-- One invocation of the external rating update, recording the rating lists
passed in winner-first order. -/
structure RateEvent where
  winners : List Rating
  losers : List Rating
deriving DecidableEq

/-- Mutable engine state: `player_ratings`, `primary_ids_cache`,
`games_used_count` of `GameProcessor`. -/
structure ProcState where
  player_ratings : List (String × Player)
  primary_ids_cache : List (String × String)
  games_used_count : ℕ
deriving DecidableEq

def initState : ProcState :=
  { player_ratings := [], primary_ids_cache := [], games_used_count := 0 }

/-- `Player.update_pick_order` (src/process.py:27). -/
def Player.update_pick_order (p : Player) (pick_order : Int) : Player :=
  let t := p.total_pick_order + pick_order
  let c := p.pick_order_count + 1
  { p with total_pick_order := t, pick_order_count := c,
           avg_pick_order := (t : ℚ) / (c : ℚ) }

/-- `Player.add_game` (src/process.py:32). -/
def Player.add_game (p : Player) (is_win : Bool) (current_date : Int)
    (is_recent_game : Bool) : Player :=
  let p := { p with games_played := p.games_played + 1 }
  let p := if is_win then { p with wins := p.wins + 1 } else { p with losses := p.losses + 1 }
  let p :=
    match p.last_played with
    | none => { p with last_played := some current_date }
    | some d => if current_date > d then { p with last_played := some current_date } else p
  if is_recent_game then { p with recent_games := p.recent_games + 1 } else p

/-- `Player.apply_sigma_decay` (src/process.py:43). -/
def Player.apply_sigma_decay (p : Player) (decay_amount max_decay_proportion : ℚ)
    (inactivity_days : Int) (default_sigma : ℚ) : Player :=
  let max_sigma_increase := default_sigma * max_decay_proportion - p.rating.sigma
  if 0 < max_sigma_increase then
    let total_decay := min (decay_amount * (inactivity_days : ℚ)) max_sigma_increase
    { p with rating := { mu := p.rating.mu, sigma := p.rating.sigma + total_decay } }
  else p

/-- `GameProcessor.get_primary_id` (src/process.py:99): cached alias
resolution; returns the canonical id and the updated cache. -/
def get_primary_id (aliases : List (String × List String))
    (cache : List (String × String)) (user_id : String) :
    String × List (String × String) :=
  match alookup user_id cache with
  | some p => (p, cache)
  | none =>
    match aliases.find? (fun pr => decide (user_id ∈ pr.2)) with
    | some pr => (pr.1, cache ++ [(user_id, pr.1)])
    | none => (user_id, cache ++ [(user_id, user_id)])

/-- The pure scan of the static alias configuration that `get_primary_id`
performs on a cache miss: first canonical whose secondary-id list holds the
raw id, else the raw id itself. -/
def scanAliases (aliases : List (String × List String)) (user_id : String) : String :=
  match aliases.find? (fun pr => decide (user_id ∈ pr.2)) with
  | some pr => pr.1
  | none => user_id

/-- A freshly created ledger record (`Player.__init__`, src/process.py:12):
default rating, zeroed counters, no last_played. -/
def freshPlayer (cfg : Config) (primary_id user_name : String) : Player :=
  { user_id := primary_id, name := user_name,
    rating := { mu := cfg.default_mu, sigma := cfg.default_sigma },
    games_played := 0, wins := 0, losses := 0, last_played := none,
    secondary_ids := [], total_pick_order := 0, pick_order_count := 0,
    avg_pick_order := 0, recent_games := 0 }

/-- `GameProcessor.get_player` (src/process.py:109): resolve, then return the
existing record or create one with default rating and zeroed counters. -/
def get_player (cfg : Config) (st : ProcState) (user_id user_name : String) :
    Player × ProcState :=
  let pr := get_primary_id cfg.user_aliases st.primary_ids_cache user_id
  let st := { st with primary_ids_cache := pr.2 }
  match alookup pr.1 st.player_ratings with
  | some p => (p, st)
  | none =>
    let p := freshPlayer cfg pr.1 user_name
    (p, { st with player_ratings := st.player_ratings ++ [(pr.1, p)] })

/-- Register every participant's raw (unresolved) id in the timeline set for
the match date (src/process.py:122-129). -/
def registerParticipants (d : Int) (ps : List Participant) (tl : Timeline) : Timeline :=
  let tl1 := match alookup d tl with
             | some _ => tl
             | none => tl ++ [(d, [])]
  ps.foldl (fun acc p => aupdate d (setAdd p.id) acc) tl1

/-- Accumulator of the per-participant loop: team rating lists and id lists
(src/process.py:138-141). -/
structure TeamAcc where
  team1 : List Rating
  team2 : List Rating
  team1_ids : List String
  team2_ids : List String
deriving DecidableEq

/-- The per-participant mutations of one loop iteration of `process_game`
(src/process.py:150-161): record the game (`is_win` when the participant's
team equals winningTeam, `is_recent_game` when the match date is on or after
the recency threshold), fold pick order (null as 0) for non-captains, and
remember the raw id. -/
def participantUpdatedPlayer (winning_team : ℕ) (current_date threshold_date : Int)
    (base : Player) (pd : Participant) : Player :=
  let pick_order : Int := pd.pickOrder.getD 0
  let is_win := decide (winning_team = pd.team)
  let is_recent_game := decide (threshold_date ≤ current_date)
  let player := base.add_game is_win current_date is_recent_game
  let player := if pd.captain = 0 then player.update_pick_order pick_order else player
  { player with secondary_ids := setAdd pd.id player.secondary_ids }

/-- Body of the per-participant loop of `process_game`
(src/process.py:146-168): get-or-create the record, apply the per-participant
mutations, and partition into teams. -/
def processParticipant (cfg : Config) (winning_team : ℕ)
    (current_date threshold_date : Int) (acc : ProcState × TeamAcc)
    (pd : Participant) : ProcState × TeamAcc :=
  let st := acc.1
  let teams := acc.2
  let gp := get_player cfg st pd.id pd.name
  let st := gp.2
  let player := participantUpdatedPlayer winning_team current_date threshold_date gp.1 pd
  let st := { st with player_ratings := aset player.user_id player st.player_ratings }
  if pd.team = 1 then
    (st, { teams with team1 := teams.team1 ++ [player.rating],
                      team1_ids := teams.team1_ids ++ [player.user_id] })
  else
    (st, { teams with team2 := teams.team2 ++ [player.rating],
                      team2_ids := teams.team2_ids ++ [player.user_id] })

/-- The whole per-participant loop of a counted match. -/
def buildTeams (cfg : Config) (winning_team : ℕ) (current_date threshold_date : Int)
    (st : ProcState) (ps : List Participant) : ProcState × TeamAcc :=
  ps.foldl (processParticipant cfg winning_team current_date threshold_date)
    (st, { team1 := [], team2 := [], team1_ids := [], team2_ids := [] })

/-- Write-back loop of `GameProcessor.update_team_stats` (src/process.py:185):
assign each returned rating to the ledger record with the paired id.  Only the
rating field changes. -/
def setRatings (upd : List (String × Rating)) (ledger : List (String × Player)) :
    List (String × Player) :=
  upd.foldl (fun acc kv => aupdate kv.1 (fun p => { p with rating := kv.2 }) acc) ledger

/-- `GameProcessor.update_team_stats` (src/process.py:185): write the returned
ratings back by id (`zip` truncates where the source would raise IndexError on
a short ratings list). -/
def update_team_stats (st : ProcState) (team_ids : List String)
    (new_ratings : List Rating) : ProcState :=
  { st with player_ratings := setRatings (team_ids.zip new_ratings) st.player_ratings }

/-- `GameProcessor.update_ratings` (src/process.py:175): winner's list is
passed first to the external rating call; a `winningTeam` other than 1
(including 0) takes the else-branch, putting team 2 in the winner slot. -/
def update_ratings (rate : RateFn) (st : ProcState) (team1 : List Rating)
    (team1_ids : List String) (team2 : List Rating) (team2_ids : List String)
    (winning_team : ℕ) : ProcState × RateEvent :=
  if winning_team = 1 then
    let r := rate team1 team2
    let st := update_team_stats st team1_ids r.1
    let st := update_team_stats st team2_ids r.2
    (st, { winners := team1, losers := team2 })
  else
    let r := rate team2 team1
    let st := update_team_stats st team2_ids r.1
    let st := update_team_stats st team1_ids r.2
    (st, { winners := team2, losers := team1 })

/-- `GameProcessor.process_game` (src/process.py:115): register participants
in the timeline, discard ties when configured, else count the game, run the
per-participant loop and invoke the rating update.  The third component is
the trace of external rating calls this match caused. -/
def process_game (cfg : Config) (rate : RateFn) (now_date : Int) (g : Match)
    (st : ProcState) (played_dates : Timeline) :
    ProcState × Timeline × List RateEvent :=
  let current_date := g.date
  let played_dates := registerParticipants current_date g.players played_dates
  if cfg.discard_ties = true ∧ g.winningTeam = 0 then
    (st, played_dates, [])
  else
    let st := { st with games_used_count := st.games_used_count + 1 }
    let threshold_date := now_date - (cfg.last_days_threshold : Int)
    let bt := buildTeams cfg g.winningTeam current_date threshold_date st g.players
    let ur := update_ratings rate bt.1 bt.2.team1 bt.2.team1_ids bt.2.team2
                bt.2.team2_ids g.winningTeam
    (ur.1, played_dates, [ur.2])

/-- Process a list of matches in order (the loop of `GameProcessor.run`),
threading state and timeline. -/
def run_games (cfg : Config) (rate : RateFn) (now_date : Int) (gs : List Match)
    (st : ProcState) (pd : Timeline) : ProcState × Timeline :=
  gs.foldl (fun acc g =>
    let r := process_game cfg rate now_date g acc.1 acc.2
    (r.1, r.2.1)) (st, pd)

/-- The participation test of the decay loop (src/process.py:196-197): resolve
the ledger key through the cache, then test literal membership of the
canonical id in that date's raw-id set.  Set members are not resolved. -/
def decayParticipated (cfg : Config) (cache : List (String × String))
    (participants : List String) (player_id : String) :
    Bool × List (String × String) :=
  let pr := get_primary_id cfg.user_aliases cache player_id
  (decide (pr.1 ∈ participants), pr.2)

/-- Body of the per-player decay loop for one checkpoint date
(src/process.py:195-202).  The two skipped lookups mark places where the
source would raise (KeyError on a ledger key resolving outside the ledger,
TypeError on a null last_played); both are unreachable for ledgers produced
by match processing. -/
def decayPlayerStep (cfg : Config) (date : Int) (participants : List String)
    (acc : List (String × String) × List (String × Player)) (player_id : String) :
    List (String × String) × List (String × Player) :=
  let dp := decayParticipated cfg acc.1 participants player_id
  let cache := dp.2
  let ledger := acc.2
  if dp.1 then (cache, ledger)
  else
    let primary_id := (get_primary_id cfg.user_aliases acc.1 player_id).1
    match alookup primary_id ledger with
    | none => (cache, ledger)
    | some p =>
      match p.last_played with
      | none => (cache, ledger)
      | some lp =>
        let days_inactive := date - lp
        if (cfg.grace_days : Int) < days_inactive then
          (cache,
           aupdate primary_id
             (fun q => q.apply_sigma_decay cfg.decay_amount cfg.max_decay_proportion
                         days_inactive cfg.default_sigma) ledger)
        else (cache, ledger)

/-- The whole per-player loop at one checkpoint date, iterating over the
ledger's key sequence (fixed during decay). -/
def decayAtDate (cfg : Config) (date : Int) (participants : List String)
    (cache : List (String × String)) (ledger : List (String × Player)) :
    List (String × String) × List (String × Player) :=
  (ledger.map Prod.fst).foldl (decayPlayerStep cfg date participants) (cache, ledger)

/-- Ascending insertion for date sorting. -/
def insertAsc (x : Int) : List Int → List Int
  | [] => [x]
  | y :: ys => if y ≤ x then y :: insertAsc x ys else x :: y :: ys

/-- Python `sorted` over the timeline's (distinct) keys. -/
def sortDates : List Int → List Int
  | [] => []
  | x :: xs => insertAsc x (sortDates xs)

/-- `GameProcessor.apply_decay` (src/process.py:190): walk the played dates in
ascending order, skip the first (no predecessor), and run the per-player loop
at every later date. -/
def apply_decay (cfg : Config) (played_dates : Timeline) (st : ProcState) : ProcState :=
  let dates := sortDates (played_dates.map Prod.fst)
  let res := dates.foldl
    (fun (acc : Option Int × List (String × String) × List (String × Player)) date =>
      match acc.1 with
      | none => (some date, acc.2)
      | some _ =>
        let participants := (alookup date played_dates).getD []
        let r := decayAtDate cfg date participants acc.2.1 acc.2.2
        (some date, r))
    (none, st.primary_ids_cache, st.player_ratings)
  { st with primary_ids_cache := res.2.1, player_ratings := res.2.2 }

/-- Conservative score used as the leaderboard sort key (output.py:40). -/
def score (p : Player) : ℚ := p.rating.mu - 3 * p.rating.sigma

/-- Descending-by-score relation driving the leaderboard sort. -/
def scoreGe (a b : String × Player) : Prop := score b.2 ≤ score a.2

instance : DecidableRel scoreGe :=
  fun a b => inferInstanceAs (Decidable (score b.2 ≤ score a.2))

instance : IsTotal (String × Player) scoreGe :=
  ⟨fun a b => le_total (score b.2) (score a.2)⟩

instance : IsTrans (String × Player) scoreGe :=
  ⟨fun _ _ _ h1 h2 => le_trans h2 h1⟩

/-- Python `sorted(..., key=lambda x: mu - 3 sigma, reverse=True)`: the stable
descending sort (equal scores keep ledger iteration order). -/
def sortPlayersDesc (l : List (String × Player)) : List (String × Player) :=
  List.insertionSort scoreGe l

/-- The last-played filter predicate (output.py:29).  A null last_played marks
where the source would raise TypeError; unreachable for records that have a
recorded game. -/
def lastPlayedGe (threshold : Int) (p : Player) : Bool :=
  match p.last_played with
  | some d => decide (threshold ≤ d)
  | none => false

/-- Filter stage 1 (output.py:21-22): minimum games played. -/
def stage1 (cfg : Config) (ledger : List (String × Player)) : List (String × Player) :=
  ledger.filter (fun e => decide (cfg.min_games_required ≤ e.2.games_played))

/-- Filter stage 2 (output.py:26-30): last-played recency window, applied only
when last_days_threshold is positive. -/
def stage2 (cfg : Config) (current_date : Int) (ledger : List (String × Player)) :
    List (String × Player) :=
  if 0 < cfg.last_days_threshold then
    (stage1 cfg ledger).filter
      (fun e => lastPlayedGe (current_date - (cfg.last_days_threshold : Int)) e.2)
  else stage1 cfg ledger

/-- Filter stage 3 (output.py:32-37): minimum recent games.  In output.py this
stage is nested inside the last_days_threshold branch, so it runs only when
both thresholds are positive. -/
def stage3 (cfg : Config) (current_date : Int) (ledger : List (String × Player)) :
    List (String × Player) :=
  if 0 < cfg.last_days_threshold ∧ 0 < cfg.min_games_last_days then
    (stage2 cfg current_date ledger).filter
      (fun e => decide (cfg.min_games_last_days ≤ e.2.recent_games))
  else stage2 cfg current_date ledger

/-- The rows and summary counters `display_ratings` derives from the ledger. -/
structure LeaderboardResult where
  rows : List (String × Player)
  cutoff_count : ℕ
  filtered_by_min_games : ℕ
  filtered_by_last_days : ℕ
  filtered_by_min_games_last_days : ℕ
deriving DecidableEq

/-- The filter/sort/truncate pipeline of `display_ratings` (output.py:15-48),
with each stage's filtered-out counter (counters keep their initial 0 when
their branch does not run). -/
def display_filter (cfg : Config) (current_date : Int)
    (ledger : List (String × Player)) : LeaderboardResult :=
  let f1 := stage1 cfg ledger
  let f2 := stage2 cfg current_date ledger
  let f3 := stage3 cfg current_date ledger
  let sorted_players := sortPlayersDesc f3
  let cutoff := if 0 < cfg.top_x then sorted_players.length - cfg.top_x else 0
  let rows := if 0 < cfg.top_x then sorted_players.take cfg.top_x else sorted_players
  { rows := rows,
    cutoff_count := cutoff,
    filtered_by_min_games := ledger.length - f1.length,
    filtered_by_last_days := if 0 < cfg.last_days_threshold then f1.length - f2.length else 0,
    filtered_by_min_games_last_days :=
      if 0 < cfg.last_days_threshold ∧ 0 < cfg.min_games_last_days
      then f2.length - f3.length else 0 }

section AssocLemmas

variable {α β : Type} [DecidableEq α]

lemma alookup_append_of_some {k : α} {l1 : List (α × β)} {v : β}
    (l2 : List (α × β)) (h : alookup k l1 = some v) :
    alookup k (l1 ++ l2) = some v := by
  induction l1 with
  | nil => simp [alookup] at h
  | cons e rest ih =>
    by_cases hk : k = e.1
    · simpa [alookup, hk] using h
    · simp only [alookup, hk, if_neg, List.cons_append] at h ⊢
      exact ih h

lemma alookup_append_of_none {k : α} {l1 : List (α × β)}
    (l2 : List (α × β)) (h : alookup k l1 = none) :
    alookup k (l1 ++ l2) = alookup k l2 := by
  induction l1 with
  | nil => simp
  | cons e rest ih =>
    by_cases hk : k = e.1
    · simp [alookup, hk] at h
    · simp only [alookup, hk, if_neg, List.cons_append] at h ⊢
      exact ih h

lemma alookup_aset_self (k : α) (v : β) (l : List (α × β)) :
    alookup k (aset k v l) = some v := by
  induction l with
  | nil => simp [aset, alookup]
  | cons e rest ih =>
    by_cases hk : k = e.1
    · simp [aset, alookup, hk]
    · simp [aset, alookup, hk, ih]

lemma alookup_aset_ne {k k2 : α} (h : k ≠ k2) (v : β) (l : List (α × β)) :
    alookup k (aset k2 v l) = alookup k l := by
  induction l with
  | nil => simp [aset, alookup, h]
  | cons e rest ih =>
    by_cases hk : k2 = e.1
    · subst hk
      simp [aset, alookup, h, ih]
    · by_cases hk2 : k = e.1
      · simp [aset, alookup, hk, hk2]
      · simp [aset, alookup, hk, hk2, ih]

lemma alookup_aupdate_self (k : α) (f : β → β) (l : List (α × β)) :
    alookup k (aupdate k f l) = (alookup k l).map f := by
  induction l with
  | nil => simp [aupdate, alookup]
  | cons e rest ih =>
    by_cases hk : k = e.1
    · simp [aupdate, alookup, hk]
    · simp [aupdate, alookup, hk, ih]

lemma alookup_aupdate_ne {k k2 : α} (h : k ≠ k2) (f : β → β) (l : List (α × β)) :
    alookup k (aupdate k2 f l) = alookup k l := by
  induction l with
  | nil => simp [aupdate]
  | cons e rest ih =>
    by_cases hk : k2 = e.1
    · subst hk
      simp [aupdate, alookup, h, ih]
    · by_cases hk2 : k = e.1
      · simp [aupdate, alookup, hk, hk2]
      · simp [aupdate, alookup, hk, hk2, ih]

end AssocLemmas

section PlayerLemmas

lemma add_game_stats (p : Player) (w : Bool) (d : Int) (r : Bool) :
    (p.add_game w d r).user_id = p.user_id ∧
    (p.add_game w d r).games_played = p.games_played + 1 ∧
    (p.add_game w d r).wins = p.wins + (if w then 1 else 0) ∧
    (p.add_game w d r).losses = p.losses + (if w then 0 else 1) ∧
    ((p.add_game w d r).last_played).isSome = true := by
  unfold Player.add_game
  cases w <;> cases r <;> cases hlp : p.last_played <;> (try simp_all) <;>
    (try (split_ifs <;> simp_all))

lemma update_pick_order_stats (p : Player) (j : Int) :
    (p.update_pick_order j).user_id = p.user_id ∧
    (p.update_pick_order j).games_played = p.games_played ∧
    (p.update_pick_order j).wins = p.wins ∧
    (p.update_pick_order j).losses = p.losses ∧
    (p.update_pick_order j).last_played = p.last_played := by
  simp [Player.update_pick_order]

lemma apply_sigma_decay_stats (p : Player) (da mp : ℚ) (days : Int) (ds : ℚ) :
    (p.apply_sigma_decay da mp days ds).user_id = p.user_id ∧
    (p.apply_sigma_decay da mp days ds).games_played = p.games_played ∧
    (p.apply_sigma_decay da mp days ds).wins = p.wins ∧
    (p.apply_sigma_decay da mp days ds).losses = p.losses ∧
    (p.apply_sigma_decay da mp days ds).last_played = p.last_played := by
  unfold Player.apply_sigma_decay
  by_cases h : 0 < ds * mp - p.rating.sigma <;> simp [h]

end PlayerLemmas

section LedgerInvariant

/-- The record fields that rating write-backs never touch. -/
def statsOf (p : Player) : String × ℕ × ℕ × ℕ × Option Int :=
  (p.user_id, p.games_played, p.wins, p.losses, p.last_played)

lemma alookup_setRatings (upd : List (String × Rating)) :
    ∀ (ledger : List (String × Player)) (k : String),
      (alookup k (setRatings upd ledger)).map statsOf =
        (alookup k ledger).map statsOf := by
  induction upd with
  | nil => intro ledger k; rfl
  | cons kv rest ih =>
    intro ledger k
    have hstep : (alookup k (aupdate kv.1 (fun p => { p with rating := kv.2 }) ledger)).map statsOf
        = (alookup k ledger).map statsOf := by
      by_cases hk : k = kv.1
      · subst hk
        rw [alookup_aupdate_self, Option.map_map]
        cases alookup kv.1 ledger <;> simp [statsOf, Function.comp]
      · rw [alookup_aupdate_ne hk]
    have hdef : setRatings (kv :: rest) ledger =
        setRatings rest (aupdate kv.1 (fun p => { p with rating := kv.2 }) ledger) := rfl
    rw [hdef, ih, hstep]

/-- The ledger shape maintained by match processing: every record sits under
its own canonical id, balances its tallies, and has recorded at least one
game (hence a non-null last_played). -/
def LedgerInv (ledger : List (String × Player)) : Prop :=
  ∀ k p, alookup k ledger = some p →
    p.user_id = k ∧ p.games_played = p.wins + p.losses ∧
    1 ≤ p.games_played ∧ p.last_played.isSome = true

lemma LedgerInv_setRatings (upd : List (String × Rating))
    {ledger : List (String × Player)} (h : LedgerInv ledger) :
    LedgerInv (setRatings upd ledger) := by
  intro k p hk
  have hmap := alookup_setRatings upd ledger k
  rw [hk] at hmap
  cases hold : alookup k ledger with
  | none => rw [hold] at hmap; simp at hmap
  | some q =>
    rw [hold] at hmap
    have hq := h k q hold
    have hfields : p.user_id = q.user_id ∧ p.games_played = q.games_played ∧
        p.wins = q.wins ∧ p.losses = q.losses ∧ p.last_played = q.last_played := by
      simpa [statsOf] using hmap
    obtain ⟨f1, f2, f3, f4, f5⟩ := hfields
    exact ⟨f1.trans hq.1, by rw [f2, f3, f4]; exact hq.2.1,
           f2 ▸ hq.2.2.1, f5 ▸ hq.2.2.2⟩

lemma participantUpdatedPlayer_stats (wt : ℕ) (cd td : Int) (base : Player)
    (pd : Participant) :
    (participantUpdatedPlayer wt cd td base pd).user_id = base.user_id ∧
    (participantUpdatedPlayer wt cd td base pd).games_played = base.games_played + 1 ∧
    (participantUpdatedPlayer wt cd td base pd).wins +
      (participantUpdatedPlayer wt cd td base pd).losses =
        base.wins + base.losses + 1 ∧
    ((participantUpdatedPlayer wt cd td base pd).last_played).isSome = true := by
  obtain ⟨a1, a2, a3, a4, a5⟩ :=
    add_game_stats base (decide (wt = pd.team)) cd (decide (td ≤ cd))
  have hsum : (base.add_game (decide (wt = pd.team)) cd (decide (td ≤ cd))).wins +
      (base.add_game (decide (wt = pd.team)) cd (decide (td ≤ cd))).losses =
      base.wins + base.losses + 1 := by
    rw [a3, a4]
    cases hb : decide (wt = pd.team) <;> simp <;> omega
  obtain ⟨u1, u2, u3, u4, u5⟩ :=
    update_pick_order_stats
      (base.add_game (decide (wt = pd.team)) cd (decide (td ≤ cd)))
      (pd.pickOrder.getD 0)
  simp only [participantUpdatedPlayer]
  by_cases hc : pd.captain = 0
  · rw [if_pos hc]
    exact ⟨by simp [u1, a1], by simp [u2, a2], by simp [u3, u4, hsum],
           by simp [u5, a5]⟩
  · rw [if_neg hc]
    exact ⟨by simp [a1], by simp [a2], by simp [hsum], by simp [a5]⟩

/-- The state component of a participant step, in closed form. -/
lemma processParticipant_fst (cfg : Config) (wt : ℕ) (cd td : Int)
    (acc : ProcState × TeamAcc) (pd : Participant) :
    (processParticipant cfg wt cd td acc pd).1 =
      { (get_player cfg acc.1 pd.id pd.name).2 with
        player_ratings :=
          aset (participantUpdatedPlayer wt cd td (get_player cfg acc.1 pd.id pd.name).1 pd).user_id
            (participantUpdatedPlayer wt cd td (get_player cfg acc.1 pd.id pd.name).1 pd)
            (get_player cfg acc.1 pd.id pd.name).2.player_ratings } := by
  unfold processParticipant
  split <;> rfl

/-- The two shapes `get_player` can leave the ledger in. -/
lemma get_player_ledger (cfg : Config) (st : ProcState) (uid uname : String) :
    (∃ p0, alookup (get_primary_id cfg.user_aliases st.primary_ids_cache uid).1
              st.player_ratings = some p0 ∧
       (get_player cfg st uid uname).1 = p0 ∧
       (get_player cfg st uid uname).2.player_ratings = st.player_ratings) ∨
    (alookup (get_primary_id cfg.user_aliases st.primary_ids_cache uid).1
        st.player_ratings = none ∧
       (get_player cfg st uid uname).1 =
         freshPlayer cfg (get_primary_id cfg.user_aliases st.primary_ids_cache uid).1 uname ∧
       (get_player cfg st uid uname).2.player_ratings =
         st.player_ratings ++
           [((get_primary_id cfg.user_aliases st.primary_ids_cache uid).1,
             freshPlayer cfg (get_primary_id cfg.user_aliases st.primary_ids_cache uid).1 uname)]) := by
  cases hl : alookup (get_primary_id cfg.user_aliases st.primary_ids_cache uid).1
      st.player_ratings with
  | some p0 =>
    left
    refine ⟨p0, rfl, ?_, ?_⟩ <;> simp [get_player, hl]
  | none =>
    right
    refine ⟨rfl, ?_, ?_⟩ <;> simp [get_player, hl]

lemma processParticipant_inv (cfg : Config) (wt : ℕ) (cd td : Int)
    (acc : ProcState × TeamAcc) (pd : Participant)
    (h : LedgerInv acc.1.player_ratings) :
    LedgerInv (processParticipant cfg wt cd td acc pd).1.player_ratings := by
  rw [processParticipant_fst]
  obtain ⟨s1, s2, s3, s4⟩ :=
    participantUpdatedPlayer_stats wt cd td (get_player cfg acc.1 pd.id pd.name).1 pd
  cases get_player_ledger cfg acc.1 pd.id pd.name with
  | inl hsome =>
    obtain ⟨p0, hl, hp1, hpr⟩ := hsome
    obtain ⟨b1, b2, b3, b4⟩ := h _ p0 hl
    intro k p hk
    rw [hpr] at hk
    by_cases hkk : k = (participantUpdatedPlayer wt cd td
        (get_player cfg acc.1 pd.id pd.name).1 pd).user_id
    · subst hkk
      rw [alookup_aset_self] at hk
      obtain rfl : p = participantUpdatedPlayer wt cd td
          (get_player cfg acc.1 pd.id pd.name).1 pd := by
        exact (Option.some.inj hk).symm
      refine ⟨rfl, ?_, ?_, s4⟩
      · rw [s2, s3, hp1, b2]
      · rw [s2]; omega
    · rw [alookup_aset_ne hkk] at hk
      exact h k p hk
  | inr hnone =>
    obtain ⟨hl, hp1, hpr⟩ := hnone
    intro k p hk
    rw [hpr] at hk
    have huid : (participantUpdatedPlayer wt cd td
        (get_player cfg acc.1 pd.id pd.name).1 pd).user_id =
        (get_primary_id cfg.user_aliases acc.1.primary_ids_cache pd.id).1 := by
      rw [s1, hp1]; rfl
    by_cases hkk : k = (participantUpdatedPlayer wt cd td
        (get_player cfg acc.1 pd.id pd.name).1 pd).user_id
    · subst hkk
      rw [alookup_aset_self] at hk
      obtain rfl : p = participantUpdatedPlayer wt cd td
          (get_player cfg acc.1 pd.id pd.name).1 pd := by
        exact (Option.some.inj hk).symm
      refine ⟨rfl, ?_, ?_, s4⟩
      · rw [s2, s3, hp1]; rfl
      · rw [s2]; omega
    · rw [alookup_aset_ne hkk] at hk
      cases hkl : alookup k acc.1.player_ratings with
      | some v =>
        rw [alookup_append_of_some _ hkl] at hk
        obtain rfl : p = v := by exact (Option.some.inj hk).symm
        exact h k p hkl
      | none =>
        rw [alookup_append_of_none _ hkl] at hk
        by_cases hkp : k = (get_primary_id cfg.user_aliases acc.1.primary_ids_cache pd.id).1
        · exact absurd (huid.trans hkp.symm).symm hkk
        · simp [alookup, hkp] at hk

lemma buildTeams_inv (cfg : Config) (wt : ℕ) (cd td : Int) (ps : List Participant) :
    ∀ (acc : ProcState × TeamAcc), LedgerInv acc.1.player_ratings →
      LedgerInv ((ps.foldl (processParticipant cfg wt cd td) acc)).1.player_ratings := by
  induction ps with
  | nil => intro acc h; exact h
  | cons q rest ih =>
    intro acc h
    exact ih _ (processParticipant_inv cfg wt cd td acc q h)

lemma update_ratings_inv (rate : RateFn) (st : ProcState) (t1 : List Rating)
    (i1 : List String) (t2 : List Rating) (i2 : List String) (wt : ℕ)
    (h : LedgerInv st.player_ratings) :
    LedgerInv (update_ratings rate st t1 i1 t2 i2 wt).1.player_ratings := by
  unfold update_ratings
  split <;> exact LedgerInv_setRatings _ (LedgerInv_setRatings _ h)

lemma process_game_inv (cfg : Config) (rate : RateFn) (now : Int) (g : Match)
    (st : ProcState) (pdl : Timeline) (h : LedgerInv st.player_ratings) :
    LedgerInv (process_game cfg rate now g st pdl).1.player_ratings := by
  unfold process_game
  split
  · exact h
  · exact update_ratings_inv _ _ _ _ _ _ _
      (buildTeams_inv cfg g.winningTeam g.date (now - (cfg.last_days_threshold : Int))
        g.players _ h)

lemma run_games_inv (cfg : Config) (rate : RateFn) (now : Int) (gs : List Match) :
    ∀ (st : ProcState) (pdl : Timeline), LedgerInv st.player_ratings →
      LedgerInv (run_games cfg rate now gs st pdl).1.player_ratings := by
  induction gs with
  | nil => intro st pdl h; exact h
  | cons g rest ih =>
    intro st pdl h
    exact ih _ _ (process_game_inv cfg rate now g st pdl h)

lemma initState_inv : LedgerInv initState.player_ratings := by
  intro k p hk
  simp [initState, alookup] at hk

end LedgerInvariant

section ConcreteInputs

/-- An identity stand-in for the external rating algorithm, used only to
instantiate theorems that hold for every rating function. -/
def rateStub : RateFn := fun w l => (w, l)

def cfgW : Config :=
  { user_aliases := [], min_games_required := 0, last_days_threshold := 0,
    min_games_last_days := 0, discard_ties := false, decay_amount := 1,
    grace_days := 0, max_decay_proportion := 1, default_sigma := 8,
    default_mu := 25, top_x := 0 }

def matchW : Match :=
  { date := 0, winningTeam := 1,
    players := [{ id := "1", name := "A", team := 1, captain := 1, pickOrder := none },
                { id := "2", name := "B", team := 2, captain := 1, pickOrder := none }] }

/-- The record the engine holds for raw id "1" after processing `matchW` with
`rateStub`. -/
def playerW : Player :=
  { user_id := "1", name := "A", rating := { mu := 25, sigma := 8 },
    games_played := 1, wins := 1, losses := 0, last_played := some 0,
    secondary_ids := ["1"], total_pick_order := 0, pick_order_count := 0,
    avg_pick_order := 0, recent_games := 1 }

def playerZero : Player := freshPlayer cfgW "1" "A"

end ConcreteInputs

section ClaimC1

/-- C1 counterexample: contrary to the claim that win/loss tallies are not
incremented in the per-participant update and change only in the rating
write-back, `Player.add_game` (the per-participant update) increments wins,
while `update_team_stats` (the write-back) leaves every tally unchanged,
writing only the rating. -/
theorem add_game_increments_tallies :
    (playerZero.add_game true 0 false).wins = 1 ∧ playerZero.wins = 0 ∧
    (update_team_stats ⟨[("1", playerW)], [], 1⟩
        ["1"] [{ mu := 30, sigma := 7 }]).player_ratings =
      [("1", { playerW with rating := { mu := 30, sigma := 7 } })] := by
  refine ⟨by decide, by decide, by decide⟩

lemma stats_component_eq {o1 o2 : Option Player}
    (h : o1.map statsOf = o2.map statsOf) :
    o1.map Player.wins = o2.map Player.wins ∧
    o1.map Player.losses = o2.map Player.losses ∧
    o1.map Player.games_played = o2.map Player.games_played := by
  cases o1 <;> cases o2 <;> simp_all [statsOf]

/-- C1 (amended): in the modular engine (src/process.py) the per-participant
update is where win/loss tallies move: `add_game` adds one win when the
participant's team won and one loss otherwise, while the rating write-back
`update_team_stats` never changes any player's wins, losses, or games_played. -/
theorem win_loss_update_locus :
    (∀ (p : Player) (w : Bool) (d : Int) (r : Bool),
      (p.add_game w d r).wins = p.wins + (if w then 1 else 0) ∧
      (p.add_game w d r).losses = p.losses + (if w then 0 else 1)) ∧
    (∀ (st : ProcState) (ids : List String) (rs : List Rating) (k : String),
      (alookup k (update_team_stats st ids rs).player_ratings).map Player.wins =
        (alookup k st.player_ratings).map Player.wins ∧
      (alookup k (update_team_stats st ids rs).player_ratings).map Player.losses =
        (alookup k st.player_ratings).map Player.losses ∧
      (alookup k (update_team_stats st ids rs).player_ratings).map Player.games_played =
        (alookup k st.player_ratings).map Player.games_played) := by
  constructor
  · intro p w d r
    obtain ⟨_, _, a3, a4, _⟩ := add_game_stats p w d r
    exact ⟨a3, a4⟩
  · intro st ids rs k
    exact stats_component_eq (alookup_setRatings (ids.zip rs) st.player_ratings k)

end ClaimC1

section ClaimC2

/-- C2 (confirmed): for every PlayerRecord in the ledger, games_played equals
wins + losses after processing any prefix of the input match list. -/
theorem games_balance_after_prefix (cfg : Config) (rate : RateFn) (now : Int)
    (gs : List Match) (k : String) (p : Player)
    (h : alookup k (run_games cfg rate now gs initState []).1.player_ratings = some p) :
    p.games_played = p.wins + p.losses :=
  ((run_games_inv cfg rate now gs initState [] initState_inv) k p h).2.1

theorem games_balance_witness : playerW.games_played = playerW.wins + playerW.losses :=
  games_balance_after_prefix cfgW rateStub 0 [matchW] "1" playerW (by decide)

end ClaimC2

section ClaimC10

/-- C10 (confirmed): every ledger record present after processing any list of
matches has at least one recorded game and a non-null last_played, so the
decay subtraction and the leaderboard's date formatting never see a null
last_played. -/
theorem ledger_record_has_game (cfg : Config) (rate : RateFn) (now : Int)
    (gs : List Match) (k : String) (p : Player)
    (h : alookup k (run_games cfg rate now gs initState []).1.player_ratings = some p) :
    1 ≤ p.games_played ∧ p.last_played.isSome = true :=
  ⟨((run_games_inv cfg rate now gs initState [] initState_inv) k p h).2.2.1,
   ((run_games_inv cfg rate now gs initState [] initState_inv) k p h).2.2.2⟩

theorem ledger_record_witness :
    1 ≤ playerW.games_played ∧ playerW.last_played.isSome = true :=
  ledger_record_has_game cfgW rateStub 0 [matchW] "1" playerW (by decide)

end ClaimC10

section ClaimC7

/-- C7 (confirmed): with decay_amount at least 0, max_decay_proportion in
[0,1] and non-negative days inactive, sigma decay never lowers sigma, never
changes mu, never lifts sigma above default_sigma * max_decay_proportion, and
leaves a player already at or above that cap unchanged. -/
theorem sigma_decay_bounds (p : Player) (da mp : ℚ) (days : Int) (ds : ℚ)
    (hda : 0 ≤ da) (_hmp0 : 0 ≤ mp) (_hmp1 : mp ≤ 1) (hdays : 0 ≤ days) :
    p.rating.sigma ≤ (p.apply_sigma_decay da mp days ds).rating.sigma ∧
    (p.apply_sigma_decay da mp days ds).rating.mu = p.rating.mu ∧
    (p.apply_sigma_decay da mp days ds).rating.sigma ≤
      max p.rating.sigma (ds * mp) ∧
    (ds * mp ≤ p.rating.sigma → p.apply_sigma_decay da mp days ds = p) := by
  unfold Player.apply_sigma_decay
  by_cases h : 0 < ds * mp - p.rating.sigma
  · rw [if_pos h]
    have hcast : (0 : ℚ) ≤ (days : ℚ) := by exact_mod_cast hdays
    have htot0 : 0 ≤ min (da * (days : ℚ)) (ds * mp - p.rating.sigma) :=
      le_min (mul_nonneg hda hcast) (le_of_lt h)
    have htot1 : min (da * (days : ℚ)) (ds * mp - p.rating.sigma) ≤
        ds * mp - p.rating.sigma := min_le_right _ _
    refine ⟨by simpa using htot0, rfl, ?_, ?_⟩
    · have : p.rating.sigma + min (da * (days : ℚ)) (ds * mp - p.rating.sigma) ≤
          ds * mp := by linarith
      exact le_trans (by simpa using this) (le_max_right _ _)
    · intro hcap
      exact absurd h (by linarith)
  · rw [if_neg h]
    exact ⟨le_refl _, rfl, le_max_left _ _, fun _ => rfl⟩

theorem sigma_decay_bounds_witness :
    playerW.rating.sigma ≤ (playerW.apply_sigma_decay 1 1 3 8).rating.sigma ∧
    (playerW.apply_sigma_decay 1 1 3 8).rating.mu = playerW.rating.mu ∧
    (playerW.apply_sigma_decay 1 1 3 8).rating.sigma ≤
      max playerW.rating.sigma (8 * 1) ∧
    ((8 : ℚ) * 1 ≤ playerW.rating.sigma → playerW.apply_sigma_decay 1 1 3 8 = playerW) :=
  sigma_decay_bounds playerW 1 1 3 8 (by norm_num) (by norm_num) (by norm_num)
    (by norm_num)

end ClaimC7

section TimelineLemmas

lemma setAdd_mem_self (x : String) (s : List String) : x ∈ setAdd x s := by
  unfold setAdd
  split
  · assumption
  · simp

lemma setAdd_mem_mono (x y : String) (s : List String) (h : y ∈ s) :
    y ∈ setAdd x s := by
  unfold setAdd
  split
  · exact h
  · simp [h]

lemma register_entry (d : Int) (ps : List Participant) :
    ∀ (tl : Timeline) (s : List String), alookup d tl = some s →
      alookup d (ps.foldl (fun acc p => aupdate d (setAdd p.id) acc) tl) =
        some (ps.foldl (fun s2 p => setAdd p.id s2) s) := by
  induction ps with
  | nil => intro tl s h; exact h
  | cons q rest ih =>
    intro tl s h
    have hstep : alookup d (aupdate d (setAdd q.id) tl) = some (setAdd q.id s) := by
      rw [alookup_aupdate_self, h]; rfl
    exact ih _ _ hstep

lemma foldl_setAdd_mono (ps : List Participant) :
    ∀ (s : List String) (y : String), y ∈ s →
      y ∈ ps.foldl (fun s2 p => setAdd p.id s2) s := by
  induction ps with
  | nil => intro s y h; exact h
  | cons q rest ih =>
    intro s y h
    exact ih _ _ (setAdd_mem_mono q.id y s h)

lemma foldl_setAdd_mem (ps : List Participant) (q : Participant) (hq : q ∈ ps) :
    ∀ (s : List String), q.id ∈ ps.foldl (fun s2 p => setAdd p.id s2) s := by
  induction ps with
  | nil => cases hq
  | cons r rest ih =>
    intro s
    rcases List.mem_cons.1 hq with h1 | h2
    · subst h1
      exact foldl_setAdd_mono rest _ _ (setAdd_mem_self q.id s)
    · exact ih h2 _

lemma register_mem (d : Int) (ps : List Participant) (tl : Timeline)
    (q : Participant) (hq : q ∈ ps) :
    q.id ∈ (alookup d (registerParticipants d ps tl)).getD [] := by
  unfold registerParticipants
  cases h : alookup d tl with
  | some s =>
    rw [register_entry d ps tl s h]
    exact foldl_setAdd_mem ps q hq s
  | none =>
    have hbase : alookup d (tl ++ [(d, ([] : List String))]) = some [] := by
      rw [alookup_append_of_none _ h]
      simp [alookup]
    rw [register_entry d ps _ [] hbase]
    exact foldl_setAdd_mem ps q hq []

end TimelineLemmas

section ClaimC6

/-- C6 (confirmed): a drawn match processed with discard_ties enabled leaves
the whole processor state untouched (games_used_count, every PlayerRecord,
the alias cache), makes no rating call, and still registers every
participant's raw id in the played-dates timeline entry for the match's
date. -/
theorem discarded_tie_frame (cfg : Config) (rate : RateFn) (now : Int)
    (g : Match) (st : ProcState) (pdl : Timeline)
    (hd : cfg.discard_ties = true) (h0 : g.winningTeam = 0) :
    (process_game cfg rate now g st pdl).1 = st ∧
    (process_game cfg rate now g st pdl).2.2 = [] ∧
    (process_game cfg rate now g st pdl).2.1 =
      registerParticipants g.date g.players pdl ∧
    ∀ q ∈ g.players,
      q.id ∈ (alookup g.date (process_game cfg rate now g st pdl).2.1).getD [] := by
  have hbranch : process_game cfg rate now g st pdl =
      (st, registerParticipants g.date g.players pdl, []) := by
    unfold process_game
    rw [if_pos ⟨hd, h0⟩]
  refine ⟨by rw [hbranch], by rw [hbranch], by rw [hbranch], ?_⟩
  intro q hq
  rw [hbranch]
  exact register_mem g.date g.players pdl q hq

def cfgTies : Config := { cfgW with discard_ties := true }

def matchDraw : Match := { matchW with winningTeam := 0 }

theorem discarded_tie_frame_witness :
    (process_game cfgTies rateStub 0 matchDraw initState []).1 = initState ∧
    (process_game cfgTies rateStub 0 matchDraw initState []).2.2 = [] ∧
    (process_game cfgTies rateStub 0 matchDraw initState []).2.1 =
      registerParticipants matchDraw.date matchDraw.players [] ∧
    ∀ q ∈ matchDraw.players,
      q.id ∈ (alookup matchDraw.date
        (process_game cfgTies rateStub 0 matchDraw initState []).2.1).getD [] :=
  discarded_tie_frame cfgTies rateStub 0 matchDraw initState [] rfl rfl

end ClaimC6

section ClaimC5

/-- C5 counterexample: with discard_ties disabled, processing a drawn match
(winningTeam = 0) does invoke the external rating update, refuting the claim
that no rating-update call is made for a draw under any configuration. -/
theorem draw_invokes_rating_call :
    (process_game cfgW rateStub 0 matchDraw initState []).2.2.length = 1 := by
  decide

/-- C5 (amended): with discard_ties enabled a drawn match triggers no rating
call; with discard_ties disabled a drawn match triggers exactly one rating
call, and that call passes team 2's ratings in the winner slot (the
winningTeam = 1 test fails for a draw and the else-branch rates team 2 as the
winner). -/
theorem draw_rating_calls (cfg : Config) (rate : RateFn) (now : Int) (g : Match)
    (st : ProcState) (pdl : Timeline) (h0 : g.winningTeam = 0) :
    (cfg.discard_ties = true → (process_game cfg rate now g st pdl).2.2 = []) ∧
    (cfg.discard_ties = false →
      (process_game cfg rate now g st pdl).2.2 =
        [{ winners := (buildTeams cfg g.winningTeam g.date
              (now - (cfg.last_days_threshold : Int))
              { st with games_used_count := st.games_used_count + 1 }
              g.players).2.team2,
           losers := (buildTeams cfg g.winningTeam g.date
              (now - (cfg.last_days_threshold : Int))
              { st with games_used_count := st.games_used_count + 1 }
              g.players).2.team1 }]) := by
  constructor
  · intro hd
    unfold process_game
    rw [if_pos ⟨hd, h0⟩]
  · intro hd
    unfold process_game
    rw [if_neg (by simp [hd])]
    have hwt : ¬ g.winningTeam = 1 := by rw [h0]; exact one_ne_zero ∘ Eq.symm
    simp only [update_ratings, if_neg hwt]

theorem draw_rating_calls_witness :
    (cfgW.discard_ties = true →
      (process_game cfgW rateStub 0 matchDraw initState []).2.2 = []) ∧
    (cfgW.discard_ties = false →
      (process_game cfgW rateStub 0 matchDraw initState []).2.2 =
        [{ winners := (buildTeams cfgW matchDraw.winningTeam matchDraw.date
              (0 - (cfgW.last_days_threshold : Int))
              { initState with games_used_count := initState.games_used_count + 1 }
              matchDraw.players).2.team2,
           losers := (buildTeams cfgW matchDraw.winningTeam matchDraw.date
              (0 - (cfgW.last_days_threshold : Int))
              { initState with games_used_count := initState.games_used_count + 1 }
              matchDraw.players).2.team1 }]) :=
  draw_rating_calls cfgW rateStub 0 matchDraw initState [] rfl

end ClaimC5

section ClaimC9

/-- A cache in which every stored entry agrees with the static scan. -/
def cacheFaithful (aliases : List (String × List String))
    (cache : List (String × String)) : Prop :=
  ∀ k v, alookup k cache = some v → v = scanAliases aliases k

lemma get_primary_id_scan (aliases : List (String × List String))
    (cache : List (String × String)) (uid : String)
    (h : cacheFaithful aliases cache) :
    (get_primary_id aliases cache uid).1 = scanAliases aliases uid ∧
    cacheFaithful aliases (get_primary_id aliases cache uid).2 := by
  cases hc : alookup uid cache with
  | some v =>
    have h1 : get_primary_id aliases cache uid = (v, cache) := by
      unfold get_primary_id; rw [hc]
    rw [h1]
    exact ⟨h uid v hc, h⟩
  | none =>
    have happ : ∀ w : String, cacheFaithful aliases (cache ++ [(uid, w)]) →
        True := fun _ _ => trivial
    cases hf : aliases.find? (fun pr => decide (uid ∈ pr.2)) with
    | some pr =>
      have h1 : get_primary_id aliases cache uid = (pr.1, cache ++ [(uid, pr.1)]) := by
        unfold get_primary_id; rw [hc, hf]
      have hscan : scanAliases aliases uid = pr.1 := by
        unfold scanAliases; rw [hf]
      rw [h1, hscan]
      refine ⟨rfl, ?_⟩
      intro k w hw
      cases hkc : alookup k cache with
      | some u =>
        rw [alookup_append_of_some _ hkc] at hw
        obtain rfl := Option.some.inj hw
        exact h k u hkc
      | none =>
        rw [alookup_append_of_none _ hkc] at hw
        by_cases hku : k = uid
        · subst hku
          simp only [alookup, if_pos rfl] at hw
          obtain rfl := Option.some.inj hw
          rw [hscan]
        · simp [alookup, hku] at hw
    | none =>
      have h1 : get_primary_id aliases cache uid = (uid, cache ++ [(uid, uid)]) := by
        unfold get_primary_id; rw [hc, hf]
      have hscan : scanAliases aliases uid = uid := by
        unfold scanAliases; rw [hf]
      rw [h1, hscan]
      refine ⟨rfl, ?_⟩
      intro k w hw
      cases hkc : alookup k cache with
      | some u =>
        rw [alookup_append_of_some _ hkc] at hw
        obtain rfl := Option.some.inj hw
        exact h k u hkc
      | none =>
        rw [alookup_append_of_none _ hkc] at hw
        by_cases hku : k = uid
        · subst hku
          simp only [alookup, if_pos rfl] at hw
          obtain rfl := Option.some.inj hw
          rw [hscan]
        · simp [alookup, hku] at hw

lemma get_primary_id_caches (aliases : List (String × List String))
    (cache : List (String × String)) (uid : String) :
    alookup uid (get_primary_id aliases cache uid).2 =
      some ((get_primary_id aliases cache uid).1) := by
  cases hc : alookup uid cache with
  | some v =>
    have h1 : get_primary_id aliases cache uid = (v, cache) := by
      unfold get_primary_id; rw [hc]
    rw [h1]; exact hc
  | none =>
    cases hf : aliases.find? (fun pr => decide (uid ∈ pr.2)) with
    | some pr =>
      have h1 : get_primary_id aliases cache uid = (pr.1, cache ++ [(uid, pr.1)]) := by
        unfold get_primary_id; rw [hc, hf]
      rw [h1]
      rw [alookup_append_of_none _ hc]
      simp [alookup]
    | none =>
      have h1 : get_primary_id aliases cache uid = (uid, cache ++ [(uid, uid)]) := by
        unfold get_primary_id; rw [hc, hf]
      rw [h1]
      rw [alookup_append_of_none _ hc]
      simp [alookup]

/-- Any interleaving of resolve calls, threading only the cache. -/
def runCalls (aliases : List (String × List String)) (calls : List String)
    (cache : List (String × String)) : List (String × String) :=
  calls.foldl (fun c uid => (get_primary_id aliases c uid).2) cache

lemma runCalls_faithful (aliases : List (String × List String))
    (calls : List String) :
    ∀ cache, cacheFaithful aliases cache →
      cacheFaithful aliases (runCalls aliases calls cache) := by
  induction calls with
  | nil => intro cache h; exact h
  | cons uid rest ih =>
    intro cache h
    exact ih _ (get_primary_id_scan aliases cache uid h).2

lemma empty_cacheFaithful (aliases : List (String × List String)) :
    cacheFaithful aliases [] := by
  intro k v hv
  simp [alookup] at hv

/-- C9 (confirmed): after any interleaving of earlier resolve calls, resolving
a raw id returns the result of scanning the static alias configuration
(self-alias when absent), so repeated calls agree independently of call
order, and the entry cached by the call equals that same scan result. -/
theorem resolve_idempotent (aliases : List (String × List String))
    (calls : List String) (uid : String) :
    (get_primary_id aliases (runCalls aliases calls []) uid).1 =
      scanAliases aliases uid ∧
    alookup uid (get_primary_id aliases (runCalls aliases calls []) uid).2 =
      some (scanAliases aliases uid) := by
  have hf := runCalls_faithful aliases calls [] (empty_cacheFaithful aliases)
  have hs := get_primary_id_scan aliases (runCalls aliases calls []) uid hf
  refine ⟨hs.1, ?_⟩
  rw [get_primary_id_caches, hs.1]

end ClaimC9

section ClaimC4

/-- Modelled from the claim's wording, for comparison with the code's check:
a canonical id "participated" on a date when some raw id in that date's
timeline set resolves to it. -/
def specParticipated (aliases : List (String × List String))
    (participants : List String) (canonical : String) : Prop :=
  ∃ raw ∈ participants, scanAliases aliases raw = canonical

def cfgC4 : Config := { cfgW with user_aliases := [("P", ["a"])] }

def matchC4 : Match :=
  { date := 0, winningTeam := 1,
    players := [{ id := "a", name := "A", team := 1, captain := 1, pickOrder := none },
                { id := "b", name := "B", team := 2, captain := 1, pickOrder := none }] }

/-- C4 counterexample: after processing a match in which canonical player "P"
played only under its alias raw id "a", the decay pass's participation check
(literal membership of the canonical id in the raw-id set) reports "P" as a
non-participant of that date even though a raw id resolving to "P" is in the
set, refuting the claimed "exactly when" equivalence. -/
theorem decay_participation_mismatch :
    (decayParticipated cfgC4
        (run_games cfgC4 rateStub 0 [matchC4] initState []).1.primary_ids_cache
        ((alookup (0 : Int)
          (run_games cfgC4 rateStub 0 [matchC4] initState []).2).getD [])
        "P").1 = false ∧
    specParticipated cfgC4.user_aliases
      ((alookup (0 : Int)
        (run_games cfgC4 rateStub 0 [matchC4] initState []).2).getD [])
      "P" := by
  constructor
  · decide
  · exact ⟨"a", by decide, by decide⟩

lemma decayPlayerStep_preserves (cfg : Config) (date : Int)
    (parts : List String) (acc : List (String × String) × List (String × Player))
    (pid2 k : String) (p : Player) (lp : Int)
    (hk : alookup k acc.2 = some p) (hlp : p.last_played = some lp)
    (hd : date ≤ lp) :
    alookup k (decayPlayerStep cfg date parts acc pid2).2 = some p := by
  simp only [decayPlayerStep]
  by_cases hb : (decayParticipated cfg acc.1 parts pid2).1
  · rw [if_pos hb]; exact hk
  · rw [if_neg hb]
    cases hq : alookup (get_primary_id cfg.user_aliases acc.1 pid2).1 acc.2 with
    | none => exact hk
    | some q =>
      dsimp only
      cases hql : q.last_played with
      | none => exact hk
      | some ql =>
        dsimp only
        by_cases hg : (cfg.grace_days : Int) < date - ql
        · rw [if_pos hg]
          by_cases hkP : k = (get_primary_id cfg.user_aliases acc.1 pid2).1
          · subst hkP
            rw [hk] at hq
            obtain rfl := Option.some.inj hq
            rw [hlp] at hql
            obtain rfl := Option.some.inj hql
            omega
          · rw [alookup_aupdate_ne hkP]
            exact hk
        · rw [if_neg hg]; exact hk

lemma decay_fold_preserves (cfg : Config) (date : Int) (parts : List String)
    (keys : List String) :
    ∀ (acc : List (String × String) × List (String × Player))
      (k : String) (p : Player) (lp : Int),
      alookup k acc.2 = some p → p.last_played = some lp → date ≤ lp →
      alookup k (keys.foldl (decayPlayerStep cfg date parts) acc).2 = some p := by
  induction keys with
  | nil => intro acc k p lp hk _ _; exact hk
  | cons key rest ih =>
    intro acc k p lp hk hlp hd
    exact ih _ k p lp (decayPlayerStep_preserves cfg date parts acc key k p lp hk hlp hd)
      hlp hd

/-- C4 (amended): the decay pass's participation check is literal membership
of the canonical id in the date's raw-id set (set members are not resolved),
so a player who played that date only under an alias raw id is treated as a
non-participant there; that player's record is nevertheless left completely
unchanged at the checkpoint, because having played that date forces
last_played on or after it, making days_inactive non-positive while
grace_days is non-negative. -/
theorem alias_player_not_decayed (cfg : Config) (date : Int)
    (parts : List String) (cache : List (String × String))
    (ledger : List (String × Player)) (k : String) (p : Player) (lp : Int)
    (hk : alookup k ledger = some p) (hlp : p.last_played = some lp)
    (hd : date ≤ lp) :
    alookup k (decayAtDate cfg date parts cache ledger).2 = some p :=
  decay_fold_preserves cfg date parts (ledger.map Prod.fst) (cache, ledger)
    k p lp hk hlp hd

def playerP4 : Player := { playerW with user_id := "P" }

theorem alias_player_not_decayed_witness :
    alookup "P" (decayAtDate cfgC4 0 ["a", "b"] [("a", "P"), ("b", "b")]
      [("P", playerP4)]).2 = some playerP4 :=
  alias_player_not_decayed cfgC4 0 ["a", "b"] [("a", "P"), ("b", "b")]
    [("P", playerP4)] "P" playerP4 0 (by decide) (by decide) (by decide)

end ClaimC4

section SortLemmas

lemma mem_of_take {γ : Type} : ∀ (n : ℕ) (l : List γ) (a : γ),
    a ∈ l.take n → a ∈ l := by
  intro n l
  induction l generalizing n with
  | nil => intro a h; simp at h
  | cons x xs ih =>
    intro a h
    cases n with
    | zero => simp at h
    | succ m =>
      rw [List.take_succ_cons] at h
      rcases List.mem_cons.1 h with h1 | h2
      · simp [h1]
      · exact List.mem_cons.2 (Or.inr (ih m a h2))

lemma chain_take {γ : Type} {R : γ → γ → Prop} :
    ∀ (l : List γ) (n : ℕ), l.Chain' R → (l.take n).Chain' R := by
  intro l
  induction l with
  | nil => intro n _; simp
  | cons x xs ih =>
    intro n h
    cases n with
    | zero => simp
    | succ m =>
      rw [List.take_succ_cons]
      cases xs with
      | nil => simp
      | cons y ys =>
        rw [List.chain'_cons] at h
        cases m with
        | zero => simp
        | succ j =>
          rw [List.take_succ_cons]
          refine List.chain'_cons.2 ⟨h.1, ?_⟩
          have h2 := ih (j + 1) h.2
          rwa [List.take_succ_cons] at h2

lemma sortPlayersDesc_chain (l : List (String × Player)) :
    (sortPlayersDesc l).Chain' scoreGe :=
  (List.sorted_insertionSort scoreGe l).chain'

lemma filter_orderedInsert (c : ℚ) (x : String × Player) :
    ∀ l : List (String × Player),
      (List.orderedInsert scoreGe x l).filter (fun e => decide (score e.2 = c)) =
        if score x.2 = c then
          x :: l.filter (fun e => decide (score e.2 = c))
        else l.filter (fun e => decide (score e.2 = c)) := by
  intro l
  induction l with
  | nil =>
    by_cases hxc : score x.2 = c <;>
      simp [List.orderedInsert, List.filter, hxc]
  | cons y ys ih =>
    by_cases hco : scoreGe x y
    · have hins : List.orderedInsert scoreGe x (y :: ys) = x :: y :: ys := by
        simp [List.orderedInsert, hco]
      rw [hins]
      by_cases hxc : score x.2 = c <;> by_cases hyc : score y.2 = c <;>
        simp [List.filter_cons, hxc, hyc]
    · have hlt : score x.2 < score y.2 := lt_of_not_le hco
      have hins : List.orderedInsert scoreGe x (y :: ys) =
          y :: List.orderedInsert scoreGe x ys := by
        simp [List.orderedInsert, hco]
      rw [hins]
      by_cases hxc : score x.2 = c
      · have hyc : ¬ score y.2 = c := by
          intro hy
          rw [hxc, hy] at hlt
          exact lt_irrefl c hlt
        simp [List.filter_cons, hyc, ih, hxc]
      · by_cases hyc : score y.2 = c <;>
          simp [List.filter_cons, hyc, ih, hxc]

lemma filter_sortPlayersDesc (c : ℚ) :
    ∀ l : List (String × Player),
      (sortPlayersDesc l).filter (fun e => decide (score e.2 = c)) =
        l.filter (fun e => decide (score e.2 = c)) := by
  intro l
  induction l with
  | nil => rfl
  | cons x xs ih =>
    have hdef : sortPlayersDesc (x :: xs) =
        List.orderedInsert scoreGe x (sortPlayersDesc xs) := rfl
    rw [hdef, filter_orderedInsert c x (sortPlayersDesc xs), ih]
    by_cases hxc : score x.2 = c <;> simp [List.filter_cons, hxc]

lemma rows_mem_stage3 (cfg : Config) (now : Int) (ledger : List (String × Player))
    (e : String × Player) (he : e ∈ (display_filter cfg now ledger).rows) :
    e ∈ stage3 cfg now ledger := by
  have hsorted : e ∈ sortPlayersDesc (stage3 cfg now ledger) := by
    by_cases ht : 0 < cfg.top_x
    · have hrw : (display_filter cfg now ledger).rows =
          (sortPlayersDesc (stage3 cfg now ledger)).take cfg.top_x := by
        simp [display_filter, ht]
      rw [hrw] at he
      exact mem_of_take _ _ _ he
    · have hrw : (display_filter cfg now ledger).rows =
          sortPlayersDesc (stage3 cfg now ledger) := by
        simp [display_filter, ht]
      rwa [hrw] at he
  exact (List.perm_insertionSort scoreGe (stage3 cfg now ledger)).mem_iff.1 hsorted

end SortLemmas

section ClaimC3

def cfgC3 : Config := { cfgW with min_games_last_days := 1 }

def playerNR : Player := { playerW with user_id := "u", recent_games := 0 }

/-- C3 counterexample: with last_days_threshold = 0 and min_games_last_days =
1, a player with recent_games = 0 is kept on the leaderboard and the stage's
filtered-out counter stays 0, because output.py nests the recent-games filter
inside the last_days_threshold branch; the claim's "regardless of the value
of last_days_threshold" fails. -/
theorem recent_filter_skipped :
    (display_filter cfgC3 0 [("u", playerNR)]).rows = [("u", playerNR)] ∧
    (display_filter cfgC3 0 [("u", playerNR)]).filtered_by_min_games_last_days = 0 := by
  refine ⟨by decide, by decide⟩

/-- C3 (amended): the recent-games filter runs only when last_days_threshold
is positive; whenever both last_days_threshold > 0 and min_games_last_days >
0, every surviving leaderboard row has recent_games at least
min_games_last_days, and the stage's filtered-out counter equals the number
of entries the stage removed. -/
theorem recent_games_filter (cfg : Config) (now : Int)
    (ledger : List (String × Player))
    (h1 : 0 < cfg.last_days_threshold) (h2 : 0 < cfg.min_games_last_days) :
    (∀ e ∈ (display_filter cfg now ledger).rows,
       cfg.min_games_last_days ≤ e.2.recent_games) ∧
    (display_filter cfg now ledger).filtered_by_min_games_last_days =
      (stage2 cfg now ledger).length - (stage3 cfg now ledger).length := by
  constructor
  · intro e he
    have h3 := rows_mem_stage3 cfg now ledger e he
    unfold stage3 at h3
    rw [if_pos ⟨h1, h2⟩] at h3
    have hm := List.mem_filter.1 h3
    exact of_decide_eq_true hm.2
  · simp [display_filter, h1, h2]

def cfgW3 : Config := { cfgW with last_days_threshold := 1, min_games_last_days := 1 }

theorem recent_games_filter_witness :
    (∀ e ∈ (display_filter cfgW3 0 [("1", playerW)]).rows,
       cfgW3.min_games_last_days ≤ e.2.recent_games) ∧
    (display_filter cfgW3 0 [("1", playerW)]).filtered_by_min_games_last_days =
      (stage2 cfgW3 0 [("1", playerW)]).length -
        (stage3 cfgW3 0 [("1", playerW)]).length :=
  recent_games_filter cfgW3 0 [("1", playerW)] (by decide) (by decide)

end ClaimC3

section ClaimC8

/-- C8 (confirmed): leaderboard rows are non-increasing in conservative score
(mu - 3 sigma); the sort is stable, stated as: for every score value, the
sorted list restricted to that score equals the filtered ledger restricted to
it in original iteration order; and with top_x > 0 the rows are the first
top_x sorted entries with cutoff_count = max(0, filtered_length - top_x),
while top_x = 0 keeps all rows with cutoff_count = 0. -/
theorem leaderboard_sorted_stable (cfg : Config) (now : Int)
    (ledger : List (String × Player)) :
    ((display_filter cfg now ledger).rows.map (fun e => score e.2)).Chain'
        (fun a b => b ≤ a) ∧
    (∀ c : ℚ, (sortPlayersDesc (stage3 cfg now ledger)).filter
        (fun e => decide (score e.2 = c)) =
      (stage3 cfg now ledger).filter (fun e => decide (score e.2 = c))) ∧
    (0 < cfg.top_x →
      (display_filter cfg now ledger).rows =
        (sortPlayersDesc (stage3 cfg now ledger)).take cfg.top_x ∧
      ((display_filter cfg now ledger).cutoff_count : Int) =
        max 0 (((stage3 cfg now ledger).length : Int) - (cfg.top_x : Int))) ∧
    (cfg.top_x = 0 →
      (display_filter cfg now ledger).rows = sortPlayersDesc (stage3 cfg now ledger) ∧
      (display_filter cfg now ledger).cutoff_count = 0) := by
  have hlen : (sortPlayersDesc (stage3 cfg now ledger)).length =
      (stage3 cfg now ledger).length :=
    (List.perm_insertionSort scoreGe _).length_eq
  refine ⟨?_, fun c => filter_sortPlayersDesc c _, ?_, ?_⟩
  · have hrows : (display_filter cfg now ledger).rows.Chain' scoreGe := by
      by_cases ht : 0 < cfg.top_x
      · have hrw : (display_filter cfg now ledger).rows =
            (sortPlayersDesc (stage3 cfg now ledger)).take cfg.top_x := by
          simp [display_filter, ht]
        rw [hrw]
        exact chain_take _ _ (sortPlayersDesc_chain _)
      · have hrw : (display_filter cfg now ledger).rows =
            sortPlayersDesc (stage3 cfg now ledger) := by
          simp [display_filter, ht]
        rw [hrw]
        exact sortPlayersDesc_chain _
    exact (List.chain'_map _).2 (hrows.imp fun {a b} h => h)
  · intro ht
    refine ⟨by simp [display_filter, ht], ?_⟩
    have hcut : (display_filter cfg now ledger).cutoff_count =
        (sortPlayersDesc (stage3 cfg now ledger)).length - cfg.top_x := by
      simp [display_filter, ht]
    rw [hcut, hlen]
    omega
  · intro ht
    refine ⟨by simp [display_filter, ht], by simp [display_filter, ht]⟩

theorem leaderboard_sorted_stable_witness :
    (((display_filter cfgW 0 [("1", playerW)]).rows.map (fun e => score e.2)).Chain'
        (fun a b => b ≤ a)) ∧
    (∀ c : ℚ, (sortPlayersDesc (stage3 cfgW 0 [("1", playerW)])).filter
        (fun e => decide (score e.2 = c)) =
      (stage3 cfgW 0 [("1", playerW)]).filter (fun e => decide (score e.2 = c))) ∧
    (0 < cfgW.top_x →
      (display_filter cfgW 0 [("1", playerW)]).rows =
        (sortPlayersDesc (stage3 cfgW 0 [("1", playerW)])).take cfgW.top_x ∧
      ((display_filter cfgW 0 [("1", playerW)]).cutoff_count : Int) =
        max 0 (((stage3 cfgW 0 [("1", playerW)]).length : Int) - (cfgW.top_x : Int))) ∧
    (cfgW.top_x = 0 →
      (display_filter cfgW 0 [("1", playerW)]).rows =
        sortPlayersDesc (stage3 cfgW 0 [("1", playerW)]) ∧
      (display_filter cfgW 0 [("1", playerW)]).cutoff_count = 0) :=
  leaderboard_sorted_stable cfgW 0 [("1", playerW)]

end ClaimC8

end MHTT
